import Mathlib

/-!
Verification development for the WCET timing-analysis tool
(basic-block CFG reconstruction, call-site duplication, SCC condensation
and Bellman-Ford based longest-path computation).

The Rust sources are embedded shallowly:

* machine integers (`u64`, `u32`) are modelled as `Nat`; the one place
  where wrap-around matters (the fictitious-leader shift) takes an
  explicit `% 2 ^ 64`;
* `f32` edge weights only ever hold (negated) sums of small `u32`
  latencies, on which the `f32` operations used (negation, addition,
  multiplication, comparison, min) are exact, so they are modelled as
  `Int`;
* `HashMap` / `BTreeMap` values are association lists, `HashSet`s are
  duplicate-free lists (only membership is ever observed);
* `panic!` / `.unwrap()` aborts are modelled with `Except` / `Option`.
-/

set_option autoImplicit false

/-- Association-list lookup, modelling `HashMap::get` / `BTreeMap::get`. -/
def assocLookup {α β : Type} [DecidableEq α] (k : α) : List (α × β) → Option β
  | [] => none
  | p :: rest => if p.1 = k then some p.2 else assocLookup k rest

/-- Association-list insert with replacement, modelling `HashMap::insert`. -/
def assocInsert {α β : Type} [DecidableEq α] (m : List (α × β)) (k : α) (v : β) :
    List (α × β) :=
  if (assocLookup k m).isSome then
    m.map (fun p => if p.1 = k then (k, v) else p)
  else
    m ++ [(k, v)]

/-- Association-list removal, modelling `HashMap::remove`. -/
def assocRemove {α β : Type} [DecidableEq α] (m : List (α × β)) (k : α) :
    List (α × β) :=
  m.filter (fun p => decide (p.1 ≠ k))

/-- Insert only when the key is absent, modelling `hash_map::Entry::Vacant`. -/
def assocInsertIfVacant {α β : Type} [DecidableEq α] (m : List (α × β)) (k : α) (v : β) :
    List (α × β) :=
  if (assocLookup k m).isSome then m else m ++ [(k, v)]

/-- Set insertion on a duplicate-free list, modelling `HashSet::insert`. -/
def lsInsert (s : List Nat) (x : Nat) : List Nat :=
  if x ∈ s then s else s ++ [x]

/-- Set removal, modelling `HashSet::remove`. -/
def lsErase (s : List Nat) (x : Nat) : List Nat :=
  s.filter (fun y => decide (y ≠ x))

/-- Tagged union of every way control may leave a basic block
(`ExitJump` in src/src/jump.rs). -/
inductive ExitJump where
  | ConditionalRelative (taken not_taken : Nat)
  | UnconditionalRelative (target : Nat)
  | ConditionalAbsolute (taken not_taken : Nat)
  | UnconditionalAbsolute (target : Nat)
  | Indirect
  | Ret (target : Nat)
  | Call (target ret : Nat)
  | Next (target : Nat)
deriving DecidableEq

/-- Decoded instruction record (`Instruction` in src/src/instruction.rs). -/
structure Instruction where
  address : Nat
  mnemonic : String
  operands : Option String × Option String
  latency : Nat
deriving DecidableEq

/-- Basic block (`Block` in src/src/block.rs). -/
structure Block where
  leader : Nat
  instructions : List Instruction
  exit_jump : Option ExitJump
deriving DecidableEq

/-- Embedding of `Block::new` (src/src/block.rs, lines 12-18). -/
def Block.new (instruction : Instruction) : Block :=
  { leader := instruction.address
    instructions := [instruction]
    exit_jump := none }

/-- Embedding of `Block::add_instruction` (src/src/block.rs, lines 20-22). -/
def Block.add_instruction (b : Block) (instruction : Instruction) : Block :=
  { b with instructions := b.instructions ++ [instruction] }

/-- Embedding of `Block::set_exit_jump` (src/src/block.rs, lines 24-26). -/
def Block.set_exit_jump (b : Block) (exit_jump : ExitJump) : Block :=
  { b with exit_jump := some exit_jump }

/-- Embedding of `Block::get_targets` (src/src/block.rs, lines 28-61). -/
def Block.get_targets (b : Block) : List Nat :=
  match b.exit_jump with
  | none => []
  | some exit_jump =>
    match exit_jump with
    | .ConditionalRelative taken not_taken => [taken, not_taken]
    | .UnconditionalRelative target => [target]
    | .ConditionalAbsolute taken not_taken => [taken, not_taken]
    | .UnconditionalAbsolute target => [target]
    | .Indirect => []
    | .Ret ret_targets => [ret_targets]
    | .Call target _ => [target]
    | .Next target => [target]

/-- Embedding of `Block::modify_targets` (src/src/block.rs, lines 63-110).
The source matches on a clone of `self.exit_jump`, so the scrutinised
values are exactly the current ones. -/
def Block.modify_targets (b : Block) (new_target target : Nat) : Block :=
  match b.exit_jump with
  | none => b
  | some exit_jump =>
    match exit_jump with
    | .ConditionalRelative taken not_taken =>
      if taken = target then
        b.set_exit_jump (.ConditionalRelative new_target not_taken)
      else if not_taken = target then
        b.set_exit_jump (.ConditionalRelative taken new_target)
      else b
    | .UnconditionalRelative _ => b.set_exit_jump (.UnconditionalRelative new_target)
    | .ConditionalAbsolute taken not_taken =>
      if taken = target then
        b.set_exit_jump (.ConditionalAbsolute new_target not_taken)
      else if not_taken = target then
        b.set_exit_jump (.ConditionalAbsolute taken new_target)
      else b
    | .UnconditionalAbsolute _ => b.set_exit_jump (.UnconditionalAbsolute new_target)
    | .Indirect => b
    | .Ret _ => b.set_exit_jump (.Ret new_target)
    | .Call _ ret => b.set_exit_jump (.Call new_target ret)
    | .Next _ => b.set_exit_jump (.Next new_target)

/-- Embedding of `Block::get_latency` (src/src/block.rs, lines 112-114). -/
def Block.get_latency (b : Block) : Nat :=
  (b.instructions.map Instruction.latency).sum

/-- Directed weighted graph keyed by block leader (`MappedGraph` in
src/src/graph.rs). `nodes` models the `StableGraph` node store together
with `node_index_map` (one entry per leader, in insertion order);
`edges` models the edge store together with `edge_index_map`, keyed by
`(source leader, target leader)`. Weights are `f32` in the source; they
only ever hold exact small integers, modelled as `Int`. -/
structure MappedGraph where
  nodes : List (Nat × Block)
  edges : List ((Nat × Nat) × Int)
deriving DecidableEq

/-- Embedding of `MappedGraph::new` (src/src/graph.rs, lines 23-29). -/
def MappedGraph.empty : MappedGraph := ⟨[], []⟩

/-- Embedding of `MappedGraph::add_node` (src/src/graph.rs, lines 31-36):
the node is added only when its leader is not yet mapped. -/
def MappedGraph.add_node (g : MappedGraph) (block : Block) : MappedGraph :=
  if (assocLookup block.leader g.nodes).isSome then g
  else { g with nodes := g.nodes ++ [(block.leader, block)] }

/-- Embedding of `MappedGraph::add_edge` (src/src/graph.rs, lines 48-60):
both endpoints are added as nodes, then the edge is added only when the
`(source leader, target leader)` key is not yet mapped (so the first
weight is kept). -/
def MappedGraph.add_edge (g : MappedGraph) (source target : Block) (weight : Int) :
    MappedGraph :=
  let g1 := (g.add_node source).add_node target
  if (assocLookup (source.leader, target.leader) g1.edges).isSome then g1
  else { g1 with edges := g1.edges ++ [((source.leader, target.leader), weight)] }

/-- Comparison of a finite value against a possibly-infinite distance
(`none` models the `f32` infinity used by petgraph for unreached nodes). -/
def oltB (a : Int) (b : Option Int) : Bool :=
  match b with
  | none => true
  | some x => decide (a < x)

/-- Replace the distance recorded for node `k` by `some v`. -/
def distUpdate (dist : List (Nat × Option Int)) (k : Nat) (v : Int) :
    List (Nat × Option Int) :=
  dist.map (fun p => if p.1 = k then (p.1, some v) else p)

/-- One relaxation of a single edge, as in petgraph `bellman_ford`:
`if d[source] + w < d[target] then d[target] := d[source] + w`. -/
def relaxEdge (dist : List (Nat × Option Int)) (e : (Nat × Nat) × Int) :
    List (Nat × Option Int) :=
  match assocLookup e.1.1 dist with
  | some (some ds) =>
    if oltB (ds + e.2) ((assocLookup e.1.2 dist).join) then
      distUpdate dist e.1.2 (ds + e.2)
    else dist
  | _ => dist

/-- One pass of relaxations over every edge in insertion order. -/
def relaxPass (edges : List ((Nat × Nat) × Int)) (dist : List (Nat × Option Int)) :
    List (Nat × Option Int) :=
  edges.foldl relaxEdge dist

/-- Whether an edge could still be relaxed (the final negative-cycle check). -/
def canRelax (dist : List (Nat × Option Int)) (e : (Nat × Nat) × Int) : Bool :=
  match assocLookup e.1.1 dist with
  | some (some ds) => oltB (ds + e.2) ((assocLookup e.1.2 dist).join)
  | _ => false

/-- Embedding of petgraph `algo::bellman_ford` as called by
`MappedGraph::longest_path` / `shortest_path`: distances start at `0` for
the source and infinity elsewhere, `node_count - 1` relaxation passes are
run, and a final pass reports `NegativeCycle` if any edge still relaxes. -/
def bellmanFord (g : MappedGraph) (source : Nat) :
    Except Unit (List (Nat × Option Int)) :=
  let init := g.nodes.map (fun p => (p.1, if p.1 = source then some (0 : Int) else none))
  let dist := (List.range (g.nodes.length - 1)).foldl (fun d _ => relaxPass g.edges d) init
  if g.edges.any (fun e => canRelax dist e) then Except.error ()
  else Except.ok dist

/-- The finite entries of a distance table (`filter(|x| x.is_finite())`). -/
def finiteDists (dist : List (Nat × Option Int)) : List Int :=
  dist.filterMap Prod.snd

/-- Outcomes of the path computations: the propagated petgraph
`NegativeCycle` error, or a Rust `panic!` / `.unwrap()` abort. -/
inductive PathErr where
  | negativeCycle
  | panic
deriving DecidableEq

/-- Graph with every edge weight negated, as built by the first loop of
`MappedGraph::longest_path` (src/src/graph.rs, lines 135-138). -/
def MappedGraph.negated (g : MappedGraph) : MappedGraph :=
  { g with edges := g.edges.map (fun e => (e.1, -e.2)) }

/-- Embedding of `MappedGraph::longest_path` (src/src/graph.rs, lines
133-151): negate all weights, run Bellman-Ford from the source, and
return minus the minimum of the finite distances; a `NegativeCycle`
error is propagated to the caller with `?`.  The `panic` cases model the
`node_index_map[..]` index and the `.unwrap()` on an empty minimum. -/
def MappedGraph.longest_path (g : MappedGraph) (source : Block) : Except PathErr Int :=
  match assocLookup source.leader g.nodes with
  | none => Except.error PathErr.panic
  | some _ =>
    match bellmanFord g.negated source.leader with
    | Except.error _ => Except.error PathErr.negativeCycle
    | Except.ok dist =>
      match (finiteDists dist).min? with
      | some m => Except.ok (-m)
      | none => Except.error PathErr.panic

/-- Lowercase hex digit, as produced by the Rust format specifier x. -/
def hexDigit (n : Nat) : Char :=
  if n < 10 then Char.ofNat (48 + n) else Char.ofNat (87 + n)

/-- Hex digit list of a number (little fuel-based helper). -/
def toHexAux : Nat → Nat → List Char
  | 0, _ => []
  | fuel + 1, n =>
    if n < 16 then [hexDigit n]
    else toHexAux fuel (n / 16) ++ [hexDigit (n % 16)]

/-- Lowercase hexadecimal rendering of a number, as produced by the Rust
format specifier x used to build the CYCLE / RECURSIVE env-var keys. -/
def toHex (n : Nat) : String :=
  String.mk (toHexAux (n + 1) n)

/-- Decimal-digit accumulator for `parse_u32`. -/
def parseDecDigits : List Char → Nat → Option Nat
  | [], acc => some acc
  | c :: rest, acc =>
    if c.isDigit then parseDecDigits rest (acc * 10 + (c.toNat - 48)) else none

/-- Embedding of Rust `str::parse::<u32>()`: an optional leading plus
sign followed by at least one decimal digit, with the value bounded by
`u32::MAX`; anything else is a parse error. -/
def parse_u32 (s : String) : Option Nat :=
  match s.toList with
  | [] => none
  | c :: rest =>
    match if c = '+' then rest else c :: rest with
    | [] => none
    | ds =>
      match parseDecDigits ds 0 with
      | some n => if n < 2 ^ 32 then some n else none
      | none => none

/-- Embedding of the iteration-bound lookup of `condensate_graph`
(src/src/cycle.rs, lines 172-201, step 5 of the spec): when the entry
leader is fictitious the key uses the original address from
`fictious_map`, otherwise the entry leader itself; a set but unparsable
variable is a `panic!` (modelled as `Except.error key`); an unset
variable yields the default 1.  The returned `Bool` records whether the
`printwarning!` of lines 199-200 runs: it is emitted on the
non-fictitious path regardless of whether the variable is set, and never
on the fictitious path. -/
def lookup_max_cycles (env : String → Option String) (fictious_map : List (Nat × Nat))
    (entry_leader : Nat) : Except String (Nat × Bool) :=
  match assocLookup entry_leader fictious_map with
  | some real_entry_address =>
    let env_var_key := "CYCLE_0x" ++ toHex real_entry_address
    match env env_var_key with
    | some cycle_var =>
      match parse_u32 cycle_var with
      | some n => Except.ok (n, false)
      | none => Except.error env_var_key
    | none => Except.ok (1, false)
  | none =>
    let env_var_key := "CYCLE_0x" ++ toHex entry_leader
    match env env_var_key with
    | some cycle_var =>
      match parse_u32 cycle_var with
      | some n => Except.ok (n, true)
      | none => Except.error env_var_key
    | none => Except.ok (1, true)

/-- Embedding of the entry-acyclification step of `condensate_graph`
(src/src/cycle.rs, lines 203-206): every edge incoming to the chosen
entry block is removed from the cycle graph. -/
def remove_incoming_edges (g : MappedGraph) (entry : Block) : MappedGraph :=
  { g with edges := g.edges.filter (fun e => decide (e.1.2 ≠ entry.leader)) }

/-- Embedding of `reconstruct_longest_path` (src/src/graph.rs, lines
184-203) with the iteration bound as a parameter, matching its
invocation from `condensate_graph` (src/src/cycle.rs, lines 221-226 and
417-424), which passes the step-5 `max_cycles` value; the file graph.rs
also carries a superseded three-argument variant of the function that
reads a crate-level constant instead.  A `NegativeCycle` error from the
source is returned to the caller; the `.unwrap()` on the exit-block path
is a panic. -/
def reconstruct_longest_path (g : MappedGraph) (source exit_block : Block)
    (entry_node_latency : Int) (max_cycles : Nat) : Except PathErr Int :=
  match g.longest_path source with
  | Except.ok path =>
    match g.longest_path exit_block with
    | Except.ok exit_path =>
      let cycle_path := path + entry_node_latency
      let directed_path := cycle_path - exit_path
      Except.ok (cycle_path * (max_cycles : Int) + directed_path)
    | Except.error _ => Except.error PathErr.panic
  | Except.error e => Except.error e

/-- Composition of steps 5-7 of one SCC resolution of `condensate_graph`
(src/src/cycle.rs, lines 172-226): look up the iteration bound, make the
cycle graph acyclic at the entry, and reconstruct the loop latency with
`entry_node_latency = entry_block.get_latency()`.  The outer
`Except String` is the fatal malformed-env-var panic. -/
def cycle_total (env : String → Option String) (fictious_map : List (Nat × Nat))
    (g : MappedGraph) (entry_block exit_block : Block) :
    Except String (Except PathErr Int) :=
  match lookup_max_cycles env fictious_map entry_block.leader with
  | Except.error k => Except.error k
  | Except.ok (max_cycles, _) =>
    Except.ok (reconstruct_longest_path (remove_incoming_edges g entry_block)
      entry_block exit_block (Int.ofNat entry_block.get_latency) max_cycles)

/-- Embedding of the multiple-false-exit selection of `condensate_graph`
(src/src/cycle.rs, lines 141-148): `exit_block` is initialised to the
entry block and every candidate in `false_outer_blocks.keys()` with a
strictly larger leader replaces it. -/
def choose_exit_block (entry_block : Block) (candidates : List Block) : Block :=
  candidates.foldl
    (fun exit_block possible_exit_block =>
      if possible_exit_block.leader > exit_block.leader then possible_exit_block
      else exit_block)
    entry_block

/-- Decidable equality for `Except`, needed to evaluate the embedded
fallible functions on concrete inputs. -/
instance instDecidableEqExcept {e a : Type} [DecidableEq e] [DecidableEq a] :
    DecidableEq (Except e a) := fun x y =>
  match x, y with
  | Except.ok v, Except.ok w =>
    if h : v = w then isTrue (congrArg Except.ok h)
    else isFalse (fun hh => h (Except.ok.inj hh))
  | Except.error v, Except.error w =>
    if h : v = w then isTrue (congrArg Except.error h)
    else isFalse (fun hh => h (Except.error.inj hh))
  | Except.ok _, Except.error _ => isFalse (fun hh => Except.noConfusion hh)
  | Except.error _, Except.ok _ => isFalse (fun hh => Except.noConfusion hh)

/-- Concrete instruction fixture for witnesses. -/
def wInsn (a lat : Nat) : Instruction := ⟨a, "nop", (none, none), lat⟩

/-- Concrete entry block fixture (leader 1, latency 2). -/
def wEntryBlock : Block := ⟨1, [wInsn 1 2], some (.Next 2)⟩

/-- Concrete exit block fixture (leader 2, latency 3). -/
def wExitBlock : Block := ⟨2, [wInsn 2 3], some (.Ret 0)⟩

/-- Concrete two-node graph fixture with one edge of weight 3. -/
def wGraph : MappedGraph := ⟨[(1, wEntryBlock), (2, wExitBlock)], [((1, 2), 3)]⟩

/-- Concrete environment fixture binding only CYCLE_0x1 to 3. -/
def wEnv : String → Option String :=
  fun k => if k = "CYCLE_0x1" then some "3" else none

/-- Edge keys (source leader, target leader) of a graph. -/
def edgeKeys (g : MappedGraph) : List (Nat × Nat) :=
  g.edges.map Prod.fst

/-- Successor leaders of the node `leader`, as read off petgraph
outgoing edges (`neighbors_directed(node, Outgoing)`). -/
def successors (g : MappedGraph) (leader : Nat) : List Nat :=
  (edgeKeys g |>.filter (fun k => decide (k.1 = leader))).map Prod.snd

/-- Edge-insertion loop body of `calculate_wcet` for one block
(src/src/wcet.rs, lines 187-196): an edge is added for every target of
the block that exists in the block map, weighted by the target latency. -/
def add_block_edges (blocks : List (Nat × Block)) (g : MappedGraph) (b : Block) :
    MappedGraph :=
  b.get_targets.foldl
    (fun g2 target =>
      match assocLookup target blocks with
      | some target_block => g2.add_edge b target_block (Int.ofNat target_block.get_latency)
      | none => g2)
    g

/-- Embedding of the CFG-building loop of `calculate_wcet`
(src/src/wcet.rs, lines 186-197): iterate over all blocks and wire each
block to its existing targets. -/
def build_graph (blocks : List (Nat × Block)) : MappedGraph :=
  blocks.foldl (fun g p => add_block_edges blocks g p.2) MappedGraph.empty

/-- Whether an `ExitJump` is a `Call`, as tested by the
`matches!(exit_jump, ExitJump::Call(_, _))` guard. -/
def ExitJump.isCall : ExitJump → Bool
  | .Call _ _ => true
  | _ => false

/-- State of the first scan of `calculate_wcet` (src/src/wcet.rs, lines
15-20): leaders, jump map, call map, duplicated call-sites and the
running counter. -/
structure ScanState where
  leaders : List Nat
  jumps : List (Nat × ExitJump)
  call_map : List (Nat × Nat)
  duplicated : List ((Nat × Nat) × (Nat × Nat))
  counter : Nat
deriving DecidableEq

/-- The fictitious-leader formula `instruction.address() << (1 + counter)`
of src/src/wcet.rs line 64, with the wrap-around of the Rust `u64` shift
made explicit. -/
def fict_address (addr counter : Nat) : Nat :=
  (addr * 2 ^ (1 + counter)) % 2 ^ 64

/-- One step of the leader/jump discovery scan (src/src/wcet.rs, lines
23-88) for the window (`instruction`, `next_instruction`) whose
classification is `exit_jump`. -/
def scanStep (s : ScanState) (instruction next_instruction : Instruction)
    (exit_jump : Option ExitJump) : ScanState :=
  match exit_jump with
  | none => s
  | some exit_jump =>
    let s1 :=
      if exit_jump.isCall then s
      else { s with jumps := assocInsert s.jumps instruction.address exit_jump,
                    leaders := lsInsert s.leaders next_instruction.address }
    match exit_jump with
    | .UnconditionalAbsolute target | .UnconditionalRelative target =>
      { s1 with leaders := lsInsert s1.leaders target }
    | .ConditionalAbsolute taken _ | .ConditionalRelative taken _ =>
      { s1 with leaders := lsInsert s1.leaders taken }
    | .Indirect =>
      { s1 with jumps := assocRemove s1.jumps instruction.address,
                leaders := lsErase s1.leaders next_instruction.address }
    | .Call target _ =>
      if next_instruction.address ≠ target ∧ target ≠ instruction.address then
        let s2 := { s1 with leaders := lsInsert s1.leaders target }
        let s3 :=
          if (assocLookup target s2.call_map).isSome then
            let fictious := fict_address instruction.address s2.counter
            let s25 :=
              if (assocLookup (target, instruction.address) s2.duplicated).isSome then s2
              else { s2 with
                duplicated := s2.duplicated
                  ++ [((target, instruction.address), (fictious, next_instruction.address))],
                leaders := lsInsert s2.leaders fictious }
            { s25 with counter := s25.counter + 1 }
          else
            { s2 with call_map := s2.call_map ++ [(target, next_instruction.address)] }
        { s3 with jumps := assocInsert s3.jumps instruction.address exit_jump,
                  leaders := lsInsert s3.leaders next_instruction.address }
      else s1
    | .Ret _ => s1
    | .Next _ => s1

/-- Embedding of the first scan of `calculate_wcet` (src/src/wcet.rs,
lines 23-88): fold `scanStep` over all adjacent instruction pairs, with
the capstone-based classification supplied as a function. -/
def find_leaders_and_jumps (insns : List Instruction)
    (classify : Instruction → Instruction → Option ExitJump) : ScanState :=
  (insns.zip insns.tail).foldl
    (fun s p => scanStep s p.1 p.2 (classify p.1 p.2)) ⟨[], [], [], [], 0⟩

def c7Insns : List Instruction :=
  [wInsn 1 1, wInsn 2 1, wInsn 3 1, wInsn 4 1, wInsn 5 1, wInsn 6 1, wInsn 7 1, wInsn 8 1]

def c7Classify : Instruction → Instruction → Option ExitJump :=
  fun i _ =>
    if i.address = 2 then some (.Call 6 3)
    else if i.address = 4 then some (.Call 6 5)
    else none

/-- State of the block-building loop of `calculate_wcet`
(src/src/wcet.rs, lines 91-97): the block under construction, the block
map ordered by leader, and the LIFO `vacant_ret` stack. -/
structure BuildState where
  current_block : Block
  blocks : List (Nat × Block)
  vacant_ret : List Nat
deriving DecidableEq

/-- Rust `Vec::pop` (`None` on an empty vector). -/
def vecPop (l : List Nat) : Option (Nat × List Nat) :=
  match l.getLast? with
  | some x => some (x, l.dropLast)
  | none => none

/-- One iteration of the block-building loop (src/src/wcet.rs, lines
99-154) for the enumerated window `(index, instruction, next
instruction)`.  When the next instruction is a leader the current block
is sealed: a `Ret` is bound through `call_map` or the `vacant_ret`
stack, a duplicated `Call` is redirected to its fictitious leader, and
otherwise the classified jump (or a `Next` fall-through) is adopted.  At
the last window the source additionally appends `next_insn` to the
current block once more and inserts the block.  `none` models the
`.unwrap()` panics. -/
def buildStep (total : Nat) (leaders : List Nat) (jumps : List (Nat × ExitJump))
    (call_map : List (Nat × Nat)) (duplicated : List ((Nat × Nat) × (Nat × Nat)))
    (st : BuildState) (iw : Nat × Instruction × Instruction) : Option BuildState :=
  let (index, insn, next_insn) := iw
  let st1? : Option BuildState :=
    if next_insn.address ∈ leaders then
      match assocLookup insn.address jumps with
      | some exit_jump =>
        let vr :=
          if (assocLookup st.current_block.leader call_map).isSome then
            st.vacant_ret ++ [st.current_block.leader]
          else st.vacant_ret
        let sealed? : Option (Block × List Nat) :=
          match exit_jump with
          | .Ret _ =>
            match assocLookup st.current_block.leader call_map with
            | some targets =>
              match vecPop vr with
              | some (_, vr2) => some (st.current_block.set_exit_jump (.Ret targets), vr2)
              | none => none
            | none =>
              if vr ≠ [] then
                match vecPop vr with
                | some (v, vr2) =>
                  match assocLookup v call_map with
                  | some ret => some (st.current_block.set_exit_jump (.Ret ret), vr2)
                  | none => some (st.current_block, vr2)
                | none => none
              else some (st.current_block, vr)
          | .Call target _ =>
            match assocLookup (target, insn.address) duplicated with
            | some (fictious_address, return_address) =>
              some (st.current_block.set_exit_jump (.Call fictious_address return_address), vr)
            | none => some (st.current_block.set_exit_jump exit_jump, vr)
          | _ => some (st.current_block.set_exit_jump exit_jump, vr)
        match sealed? with
        | some (blk, vr2) =>
          some ⟨Block.new next_insn, assocInsert st.blocks blk.leader blk, vr2⟩
        | none => none
      | none =>
        let blk := st.current_block.set_exit_jump (.Next next_insn.address)
        let vr :=
          if (assocLookup st.current_block.leader call_map).isSome then
            st.vacant_ret ++ [st.current_block.leader]
          else st.vacant_ret
        some ⟨Block.new next_insn, assocInsert st.blocks blk.leader blk, vr⟩
    else
      some { st with current_block := st.current_block.add_instruction next_insn }
  match st1? with
  | none => none
  | some st1 =>
    if index = total - 2 then
      some { st1 with
        current_block := st1.current_block.add_instruction next_insn,
        blocks := assocInsert st1.blocks
          (st1.current_block.add_instruction next_insn).leader
          (st1.current_block.add_instruction next_insn) }
    else some st1

/-- Embedding of the block-building pass of `calculate_wcet`
(src/src/wcet.rs, lines 90-154): start from a block holding the first
instruction and fold `buildStep` over the enumerated adjacent pairs;
the result is the final block map. -/
def build_blocks (insns : List Instruction) (leaders : List Nat)
    (jumps : List (Nat × ExitJump)) (call_map : List (Nat × Nat))
    (duplicated : List ((Nat × Nat) × (Nat × Nat))) : Option (List (Nat × Block)) :=
  match insns with
  | [] => none
  | first_instruction :: _ =>
    ((insns.zip insns.tail).enum.foldlM
        (buildStep insns.length leaders jumps call_map duplicated)
        ⟨Block.new first_instruction, [], []⟩).map
      (fun st => st.blocks)

/-- Capstone architecture tags (`capstone::Arch`). -/
inductive CapArch where
  | ARM
  | ARM64
  | MIPS
  | X86
  | PPC
  | SPARC
  | SYSZ
  | XCORE
  | M68K
  | TMS320C64X
  | M680X
  | EVM
  | RISCV
deriving DecidableEq

/-- Capstone disassembly modes (`capstone::Mode`), restricted to those
used by `ArchMode::from`. -/
inductive CapMode where
  | Mode64
  | Mode32
  | Arm
  | Thumb
  | RiscV64
  | RiscV32
  | Mips64
  | Mips32
  | V9
deriving DecidableEq

/-- Object-file architectures (`object::Architecture`), restricted to
the variants matched by `ArchMode::from` plus one unmatched variant. -/
inductive ObjArchitecture where
  | X86_64
  | X86_64_X32
  | Aarch64
  | Arm
  | Riscv64
  | Riscv32
  | Mips64
  | Mips
  | PowerPc64
  | PowerPc
  | Sparc64
  | LoongArch64
deriving DecidableEq

/-- Embedding of `ArchMode::from` (src/src/arch.rs, lines 9-58); the
catch-all arm is the `panic!("unsupported architecture")`. -/
def arch_mode_from : ObjArchitecture → Except String (CapArch × CapMode)
  | .X86_64 => Except.ok (.X86, .Mode64)
  | .X86_64_X32 => Except.ok (.X86, .Mode32)
  | .Aarch64 => Except.ok (.ARM64, .Arm)
  | .Arm => Except.ok (.ARM, .Thumb)
  | .Riscv64 => Except.ok (.RISCV, .RiscV64)
  | .Riscv32 => Except.ok (.RISCV, .RiscV32)
  | .Mips64 => Except.ok (.MIPS, .Mips64)
  | .Mips => Except.ok (.MIPS, .Mips32)
  | .PowerPc64 => Except.ok (.PPC, .Mode64)
  | .PowerPc => Except.ok (.PPC, .Mode32)
  | .Sparc64 => Except.ok (.SPARC, .V9)
  | .LoongArch64 => Except.error "unsupported architecture"

/-- Capstone instruction view used by `get_exit_jump`: address, mnemonic
and operand string. -/
structure CsInsn where
  address : Nat
  mnemonic : String
  op_str : String
deriving DecidableEq

/-- Capstone group id `CS_GRP_JUMP`. -/
def CS_GRP_JUMP : Nat := 1

/-- Capstone group id `CS_GRP_CALL`. -/
def CS_GRP_CALL : Nat := 2

/-- Capstone group id `CS_GRP_RET`. -/
def CS_GRP_RET : Nat := 3

/-- Capstone group id `CS_GRP_INT`. -/
def CS_GRP_INT : Nat := 4

/-- Capstone group id `CS_GRP_IRET`. -/
def CS_GRP_IRET : Nat := 5

/-- Capstone group id `CS_GRP_BRANCH_RELATIVE`. -/
def CS_GRP_BRANCH_RELATIVE : Nat := 7

/-- Branch-classification flags accumulated from the instruction group
ids (src/src/jump.rs, lines 60-85). -/
structure JumpFlags where
  is_jump : Bool
  is_relative : Bool
  is_call : Bool
  is_ret : Bool
deriving DecidableEq

/-- Embedding of the group-id loop of `get_exit_jump`
(src/src/jump.rs, lines 66-85). -/
def classify_groups (insn_group_ids : List Nat) : JumpFlags :=
  insn_group_ids.foldl
    (fun f id =>
      if id = CS_GRP_INT ∨ id = CS_GRP_CALL ∨ id = CS_GRP_JUMP
          ∨ id = CS_GRP_RET ∨ id = CS_GRP_IRET then
        let f1 := { f with is_jump := true }
        if id = CS_GRP_CALL then { f1 with is_call := true }
        else if id = CS_GRP_RET then { f1 with is_ret := true }
        else f1
      else if id = CS_GRP_BRANCH_RELATIVE then { f with is_relative := true }
      else f)
    ⟨false, false, false, false⟩

/-- Embedding of the per-architecture unconditional-mnemonic table of
`get_exit_jump` (src/src/jump.rs, lines 89-119); the catch-all arm is
the `panic!("Unsupported architecture!")` — note that SPARC is in the
catch-all because its arm is commented out in the source. -/
def arch_unconditional : CapArch → String → Except String Bool
  | .ARM, op => Except.ok (["b", "bl", "br", "bx", "blr", "bcc", "ret"].contains op)
  | .ARM64, op => Except.ok (["b", "bl", "br", "blr", "bcc", "ret"].contains op)
  | .MIPS, op => Except.ok (["j", "jal", "jr", "jalr"].contains op)
  | .X86, op => Except.ok (["jmp", "call", "ret"].contains op)
  | .PPC, op => Except.ok (["b", "bl", "blr", "bctr", "bctrl"].contains op)
  | .RISCV, op => Except.ok (["j", "jal", "jr", "jalr", "tail", "call", "ecall", "scall",
      "ret", "eret", "c.j", "c.jal", "c.jr", "c.jalr"].contains op)
  | _, _ => Except.error "Unsupported architecture!"

/-- Split a character list at every occurrence of the separator
character (Rust `str::split(char)`). -/
def splitChar (c : Char) : List Char → List (List Char)
  | [] => [[]]
  | x :: rest =>
    if x = c then [] :: splitChar c rest
    else
      match splitChar c rest with
      | [] => [[x]]
      | h :: t => (x :: h) :: t

/-- Rust `str::trim` on a character list. -/
def trimList (l : List Char) : List Char :=
  ((l.dropWhile Char.isWhitespace).reverse.dropWhile Char.isWhitespace).reverse

/-- Rust `str::contains("0x")` on a character list. -/
def contains0x : List Char → Bool
  | [] => false
  | [_] => false
  | c1 :: c2 :: rest => if c1 = '0' ∧ c2 = 'x' then true else contains0x (c2 :: rest)

/-- Rust `str::split("0x")` on a character list. -/
def splitOn0x : List Char → List (List Char)
  | [] => [[]]
  | [c] => [[c]]
  | c1 :: c2 :: rest =>
    if c1 = '0' ∧ c2 = 'x' then [] :: splitOn0x rest
    else
      match splitOn0x (c2 :: rest) with
      | [] => [[c1]]
      | h :: t => (c1 :: h) :: t

/-- Value of one hexadecimal digit (either case). -/
def hexVal (c : Char) : Option Nat :=
  if c.isDigit then some (c.toNat - 48)
  else if 'a' ≤ c ∧ c ≤ 'f' then some (c.toNat - 87)
  else if 'A' ≤ c ∧ c ≤ 'F' then some (c.toNat - 55)
  else none

/-- Hexadecimal-digit accumulator for `parse_hex_u64`. -/
def parseHexDigits : List Char → Nat → Option Nat
  | [], acc => some acc
  | c :: rest, acc =>
    match hexVal c with
    | some d => parseHexDigits rest (acc * 16 + d)
    | none => none

/-- Embedding of Rust `u64::from_str_radix(s, 16)`: an optional leading
plus sign followed by at least one hex digit, bounded by `u64::MAX`. -/
def parse_hex_u64 (cs : List Char) : Option Nat :=
  match (match cs with | '+' :: rest => rest | _ => cs) with
  | [] => none
  | ds =>
    match parseHexDigits ds 0 with
    | some n => if n < 2 ^ 64 then some n else none
    | none => none

/-- Embedding of `get_exit_jump` (src/src/jump.rs, lines 52-159): the
group tags decide branch/call/ret/relative, the per-architecture table
decides conditionality (panicking on unhandled architectures), and the
last operand is parsed as a hex immediate (an unparsable immediate is
the `from_str_radix(..).unwrap()` panic); otherwise `Ret(0)` for
returns and `Indirect` for the rest. -/
def get_exit_jump (insn next_insn : CsInsn) (insn_group_ids : List Nat)
    (arch : CapArch) : Except String (Option ExitJump) :=
  let f := classify_groups insn_group_ids
  if f.is_jump then
    match arch_unconditional arch insn.mnemonic with
    | Except.error e => Except.error e
    | Except.ok is_unconditional =>
      let operands := splitChar ',' insn.op_str.toList
      let last_operand := trimList (operands.getLastD [])
      if contains0x last_operand then
        match parse_hex_u64 ((splitOn0x last_operand).getD 1 []) with
        | some last_operand_value =>
          if f.is_call then
            Except.ok (some (.Call last_operand_value next_insn.address))
          else
            match f.is_relative, is_unconditional with
            | true, true => Except.ok (some (.UnconditionalRelative last_operand_value))
            | true, false =>
              Except.ok (some (.ConditionalRelative last_operand_value next_insn.address))
            | false, true => Except.ok (some (.UnconditionalAbsolute last_operand_value))
            | false, false =>
              Except.ok (some (.ConditionalAbsolute last_operand_value next_insn.address))
        | none => Except.error "called Result::unwrap on an Err value"
      else if f.is_ret then Except.ok (some (.Ret 0))
      else Except.ok (some .Indirect)
  else Except.ok none

theorem assocLookup_eq_some_mem {α β : Type} [DecidableEq α] {k : α} {v : β}
    {m : List (α × β)} (h : assocLookup k m = some v) : (k, v) ∈ m := by
  induction m with
  | nil => simp [assocLookup] at h
  | cons p rest ih =>
    rw [assocLookup] at h
    by_cases hp : p.1 = k
    · rw [if_pos hp] at h
      have hv := Option.some.inj h
      subst hv
      have hpk : (k, p.2) = p := by
        cases p with
        | mk a b => cases hp; rfl
      rw [hpk]
      exact List.mem_cons_self _ _
    · rw [if_neg hp] at h
      exact List.mem_cons_of_mem _ (ih h)

theorem assocLookup_isSome_iff {α β : Type} [DecidableEq α] {k : α}
    {m : List (α × β)} : (assocLookup k m).isSome ↔ k ∈ m.map Prod.fst := by
  induction m with
  | nil => simp [assocLookup]
  | cons p rest ih =>
    by_cases hp : p.1 = k
    · simp [assocLookup, hp]
    · simp [assocLookup, hp, ih, Ne.symm hp]

theorem assocLookup_fn_unique {α β : Type} [DecidableEq α] {k : α} {a b : β}
    {m : List (α × β)} (hnd : (m.map Prod.fst).Nodup)
    (ha : (k, a) ∈ m) (hb : (k, b) ∈ m) : a = b := by
  induction m with
  | nil => simp at ha
  | cons p rest ih =>
    simp only [List.map_cons, List.nodup_cons] at hnd
    rcases List.mem_cons.1 ha with ha1 | ha1
    · rcases List.mem_cons.1 hb with hb1 | hb1
      · rw [← ha1] at hb1
        exact ((Prod.ext_iff.1 hb1).2).symm
      · exfalso
        apply hnd.1
        rw [← ha1]
        exact List.mem_map.2 ⟨(k, b), hb1, rfl⟩
    · rcases List.mem_cons.1 hb with hb1 | hb1
      · exfalso
        apply hnd.1
        rw [← hb1]
        exact List.mem_map.2 ⟨(k, a), ha1, rfl⟩
      · exact ih hnd.2 ha1 hb1

/-- C10: `modify_targets(new_target, target)` overwrites the target of
`UnconditionalRelative`, `UnconditionalAbsolute`, `Ret`, `Call` and `Next`
exits unconditionally (the old `target` argument is ignored); only the
`ConditionalRelative` / `ConditionalAbsolute` variants rewrite solely the
field (`taken`, or else `not_taken`) that equals the old target; `Indirect`
and exit-less blocks are left unchanged. -/
theorem c10_modify_targets (b : Block) (nt t : Nat) :
    ((∃ x, b.exit_jump = some (.UnconditionalRelative x)) →
      (b.modify_targets nt t).exit_jump = some (.UnconditionalRelative nt))
  ∧ ((∃ x, b.exit_jump = some (.UnconditionalAbsolute x)) →
      (b.modify_targets nt t).exit_jump = some (.UnconditionalAbsolute nt))
  ∧ ((∃ x, b.exit_jump = some (.Ret x)) →
      (b.modify_targets nt t).exit_jump = some (.Ret nt))
  ∧ (∀ x r, b.exit_jump = some (.Call x r) →
      (b.modify_targets nt t).exit_jump = some (.Call nt r))
  ∧ ((∃ x, b.exit_jump = some (.Next x)) →
      (b.modify_targets nt t).exit_jump = some (.Next nt))
  ∧ (∀ tk ntk, b.exit_jump = some (.ConditionalRelative tk ntk) → tk = t →
      (b.modify_targets nt t).exit_jump = some (.ConditionalRelative nt ntk))
  ∧ (∀ tk ntk, b.exit_jump = some (.ConditionalRelative tk ntk) → tk ≠ t → ntk = t →
      (b.modify_targets nt t).exit_jump = some (.ConditionalRelative tk nt))
  ∧ (∀ tk ntk, b.exit_jump = some (.ConditionalRelative tk ntk) → tk ≠ t → ntk ≠ t →
      b.modify_targets nt t = b)
  ∧ (∀ tk ntk, b.exit_jump = some (.ConditionalAbsolute tk ntk) → tk = t →
      (b.modify_targets nt t).exit_jump = some (.ConditionalAbsolute nt ntk))
  ∧ (∀ tk ntk, b.exit_jump = some (.ConditionalAbsolute tk ntk) → tk ≠ t → ntk = t →
      (b.modify_targets nt t).exit_jump = some (.ConditionalAbsolute tk nt))
  ∧ (∀ tk ntk, b.exit_jump = some (.ConditionalAbsolute tk ntk) → tk ≠ t → ntk ≠ t →
      b.modify_targets nt t = b)
  ∧ (b.exit_jump = some .Indirect → b.modify_targets nt t = b)
  ∧ (b.exit_jump = none → b.modify_targets nt t = b) := by
  obtain ⟨l, ins, ej⟩ := b
  refine ⟨?_, ?_, ?_, ?_, ?_, ?_, ?_, ?_, ?_, ?_, ?_, ?_, ?_⟩
  · rintro ⟨x, h⟩
    subst h
    rfl
  · rintro ⟨x, h⟩
    subst h
    rfl
  · rintro ⟨x, h⟩
    subst h
    rfl
  · intro x r h
    subst h
    rfl
  · rintro ⟨x, h⟩
    subst h
    rfl
  · intro tk ntk h h1
    subst h
    simp [Block.modify_targets, Block.set_exit_jump, h1]
  · intro tk ntk h h1 h2
    subst h
    simp [Block.modify_targets, Block.set_exit_jump, h1, h2]
  · intro tk ntk h h1 h2
    subst h
    simp [Block.modify_targets, h1, h2]
  · intro tk ntk h h1
    subst h
    simp [Block.modify_targets, Block.set_exit_jump, h1]
  · intro tk ntk h h1 h2
    subst h
    simp [Block.modify_targets, Block.set_exit_jump, h1, h2]
  · intro tk ntk h h1 h2
    subst h
    simp [Block.modify_targets, h1, h2]
  · intro h
    subst h
    rfl
  · intro h
    subst h
    rfl

/-- Witness for C10: a conditional-relative exit with `not_taken = 7`
rewritten at old target 7 moves only the `not_taken` field. -/
theorem c10_modify_targets_witness :
    (Block.modify_targets ⟨1, [], some (.ConditionalRelative 5 7)⟩ 9 7).exit_jump
      = some (.ConditionalRelative 5 9) :=
  (c10_modify_targets ⟨1, [], some (.ConditionalRelative 5 7)⟩ 9 7).2.2.2.2.2.2.1
    5 7 rfl (by decide) rfl

theorem add_node_edges (g : MappedGraph) (b : Block) : (g.add_node b).edges = g.edges := by
  unfold MappedGraph.add_node
  split <;> rfl

theorem add_node_keys_nodup (g : MappedGraph) (b : Block)
    (h : (g.nodes.map Prod.fst).Nodup) : ((g.add_node b).nodes.map Prod.fst).Nodup := by
  unfold MappedGraph.add_node
  by_cases hs : (assocLookup b.leader g.nodes).isSome
  · rw [if_pos hs]
    exact h
  · rw [if_neg hs]
    have hb : b.leader ∉ g.nodes.map Prod.fst := by
      intro hmem
      exact hs (assocLookup_isSome_iff.2 hmem)
    simp only [List.map_append, List.map_cons, List.map_nil]
    refine List.Nodup.append h (List.nodup_singleton _) ?_
    intro a ha hb1
    simp only [List.mem_singleton] at hb1
    exact hb (hb1 ▸ ha)

/-- C9: `MappedGraph` insertion is idempotent on identity.  Adding a node
whose leader is already present, or an edge whose ordered leader pair is
already present (with both endpoints present), leaves the graph
unchanged, and both operations preserve key uniqueness of the node and
edge stores. -/
theorem c9_mapped_graph_insert_idempotent (g : MappedGraph) (b s t : Block) (w : Int) :
    ((assocLookup b.leader g.nodes).isSome → g.add_node b = g)
  ∧ ((assocLookup s.leader g.nodes).isSome → (assocLookup t.leader g.nodes).isSome →
      (assocLookup (s.leader, t.leader) g.edges).isSome → g.add_edge s t w = g)
  ∧ ((g.nodes.map Prod.fst).Nodup → ((g.add_node b).nodes.map Prod.fst).Nodup)
  ∧ ((g.nodes.map Prod.fst).Nodup → (g.edges.map Prod.fst).Nodup →
      ((g.add_edge s t w).nodes.map Prod.fst).Nodup
        ∧ ((g.add_edge s t w).edges.map Prod.fst).Nodup) := by
  have hnode : ∀ (g' : MappedGraph) (b' : Block),
      (assocLookup b'.leader g'.nodes).isSome → g'.add_node b' = g' := by
    intro g' b' h
    unfold MappedGraph.add_node
    rw [if_pos h]
  have hdef : MappedGraph.add_edge g s t w =
      (if (assocLookup (s.leader, t.leader) ((g.add_node s).add_node t).edges).isSome
       then (g.add_node s).add_node t
       else { nodes := ((g.add_node s).add_node t).nodes
              edges := ((g.add_node s).add_node t).edges ++ [((s.leader, t.leader), w)] }) := rfl
  refine ⟨hnode g b, ?_, add_node_keys_nodup g b, ?_⟩
  · intro hs ht he
    have h1 : (g.add_node s).add_node t = g := by
      rw [hnode g s hs, hnode g t ht]
    rw [hdef, h1, if_pos he]
  · intro hn hedge
    have hn2 : (((g.add_node s).add_node t).nodes.map Prod.fst).Nodup :=
      add_node_keys_nodup _ t (add_node_keys_nodup g s hn)
    have hedge2 : (((g.add_node s).add_node t).edges.map Prod.fst).Nodup := by
      rw [add_node_edges, add_node_edges]
      exact hedge
    rw [hdef]
    by_cases hkey : (assocLookup (s.leader, t.leader) ((g.add_node s).add_node t).edges).isSome
    · rw [if_pos hkey]
      exact ⟨hn2, hedge2⟩
    · rw [if_neg hkey]
      refine ⟨hn2, ?_⟩
      have hkey2 : (s.leader, t.leader) ∉
          ((g.add_node s).add_node t).edges.map Prod.fst := by
        intro hmem
        exact hkey (assocLookup_isSome_iff.2 hmem)
      simp only [List.map_append, List.map_cons, List.map_nil]
      refine List.Nodup.append hedge2 (List.nodup_singleton _) ?_
      intro a ha hb1
      simp only [List.mem_singleton] at hb1
      exact hkey2 (hb1 ▸ ha)

/-- Witness for C9 at a concrete two-node graph: re-adding the node with
leader 1 and the edge (1, 2) changes nothing, and key uniqueness holds. -/
theorem c9_mapped_graph_insert_idempotent_witness :
    MappedGraph.add_edge
        ⟨[(1, Block.new ⟨1, "nop", (none, none), 1⟩), (2, Block.new ⟨2, "nop", (none, none), 1⟩)],
         [((1, 2), 1)]⟩
        (Block.new ⟨1, "nop", (none, none), 1⟩) (Block.new ⟨2, "nop", (none, none), 1⟩) 5
      = ⟨[(1, Block.new ⟨1, "nop", (none, none), 1⟩), (2, Block.new ⟨2, "nop", (none, none), 1⟩)],
         [((1, 2), 1)]⟩ :=
  (c9_mapped_graph_insert_idempotent
      ⟨[(1, Block.new ⟨1, "nop", (none, none), 1⟩), (2, Block.new ⟨2, "nop", (none, none), 1⟩)],
       [((1, 2), 1)]⟩
      (Block.new ⟨1, "nop", (none, none), 1⟩)
      (Block.new ⟨1, "nop", (none, none), 1⟩) (Block.new ⟨2, "nop", (none, none), 1⟩)
      5).2.1 (by decide) (by decide) (by decide)

theorem assocLookup_map_keyfixed {β γ : Type} (f : Nat → β → γ) (m : List (Nat × β)) (k : Nat) :
    assocLookup k (m.map (fun p => (p.1, f p.1 p.2)))
      = (assocLookup k m).map (f k) := by
  induction m with
  | nil => rfl
  | cons p rest ih =>
    by_cases hp : p.1 = k
    · subst hp
      simp [assocLookup]
    · simp [assocLookup, hp, ih]

theorem distUpdate_lookup (dist : List (Nat × Option Int)) (t : Nat) (v : Int) (k : Nat) :
    assocLookup k (distUpdate dist t v)
      = (assocLookup k dist).map (fun old => if k = t then some v else old) := by
  have h : distUpdate dist t v
      = dist.map (fun p => (p.1, if p.1 = t then some v else p.2)) := by
    unfold distUpdate
    congr 1
    funext p
    by_cases hp : p.1 = t <;> simp [hp]
  rw [h, assocLookup_map_keyfixed (fun a old => if a = t then some v else old)]

theorem relaxEdge_finite_at (dist : List (Nat × Option Int)) (e : (Nat × Nat) × Int)
    (k : Nat) (h : ∃ v, assocLookup k dist = some (some v)) :
    ∃ v, assocLookup k (relaxEdge dist e) = some (some v) := by
  obtain ⟨v, hv⟩ := h
  unfold relaxEdge
  cases hsrc : assocLookup e.1.1 dist with
  | none => exact ⟨v, hv⟩
  | some d0 =>
    cases d0 with
    | none => exact ⟨v, hv⟩
    | some ds =>
      dsimp only
      by_cases hrel : oltB (ds + e.2) ((assocLookup e.1.2 dist).join)
      · rw [if_pos hrel]
        rw [distUpdate_lookup, hv]
        by_cases hk : k = e.1.2
        · exact ⟨ds + e.2, by simp [hk]⟩
        · exact ⟨v, by simp [hk]⟩
      · rw [if_neg hrel]
        exact ⟨v, hv⟩

theorem foldl_preserve {α β : Type} (P : α → Prop) (f : α → β → α) (l : List β)
    (init : α) (hstep : ∀ a x, P a → P (f a x)) (hinit : P init) :
    P (l.foldl f init) := by
  induction l generalizing init with
  | nil => exact hinit
  | cons x rest ih => exact ih (f init x) (hstep init x hinit)

theorem relaxPass_finite_at (edges : List ((Nat × Nat) × Int))
    (dist : List (Nat × Option Int)) (k : Nat)
    (h : ∃ v, assocLookup k dist = some (some v)) :
    ∃ v, assocLookup k (relaxPass edges dist) = some (some v) :=
  foldl_preserve (fun d => ∃ v, assocLookup k d = some (some v)) relaxEdge edges dist
    (fun d e hd => relaxEdge_finite_at d e k hd) h

theorem bellmanFord_source_finite (g : MappedGraph) (source : Nat)
    (hs : (assocLookup source g.nodes).isSome)
    (dist : List (Nat × Option Int)) (h : bellmanFord g source = Except.ok dist) :
    ∃ v, assocLookup source dist = some (some v) := by
  unfold bellmanFord at h
  by_cases hcycle : g.edges.any (fun e => canRelax
      ((List.range (g.nodes.length - 1)).foldl (fun d _ => relaxPass g.edges d)
        (g.nodes.map (fun p => (p.1, if p.1 = source then some (0 : Int) else none)))) e)
  · rw [if_pos hcycle] at h
    cases h
  · rw [if_neg hcycle] at h
    have hd := Except.ok.inj h
    subst hd
    apply foldl_preserve (fun d => ∃ v, assocLookup source d = some (some v))
      (fun d _ => relaxPass g.edges d) (List.range (g.nodes.length - 1))
    · intro d x hd
      exact relaxPass_finite_at g.edges d source hd
    · rw [assocLookup_map_keyfixed (fun a _ => if a = source then some (0 : Int) else none)]
      cases hv : assocLookup source g.nodes with
      | none => rw [hv] at hs; cases hs
      | some b => exact ⟨0, by simp [hv]⟩

theorem finiteDists_nonempty (dist : List (Nat × Option Int)) (k : Nat)
    (h : ∃ v, assocLookup k dist = some (some v)) : finiteDists dist ≠ [] := by
  obtain ⟨v, hv⟩ := h
  have hmem : (k, some v) ∈ dist := assocLookup_eq_some_mem hv
  have : v ∈ finiteDists dist := List.mem_filterMap.2 ⟨(k, some v), hmem, rfl⟩
  intro hnil
  rw [hnil] at this
  cases this

theorem min?_of_ne_nil {l : List Int} (h : l ≠ []) : ∃ m, l.min? = some m := by
  cases l with
  | nil => exact absurd rfl h
  | cons x rest => exact ⟨rest.foldl min x, rfl⟩

/-- C4: `longest_path` negates every edge weight, runs Bellman-Ford from
the source, and on success returns minus the minimum of the finite
distances (which exists, is one of the finite distances, and is least
among them); when Bellman-Ford reports a negative cycle the error is
returned to the caller as `NegativeCycle` (an `Except.error`, not an
abort), so the condenser can condense and retry. -/
theorem c4_longest_path_via_bellman_ford (g : MappedGraph) (b : Block)
    (hs : (assocLookup b.leader g.nodes).isSome) :
    (∀ dist, bellmanFord g.negated b.leader = Except.ok dist →
      ∃ m, (finiteDists dist).min? = some m ∧ m ∈ finiteDists dist
        ∧ (∀ x ∈ finiteDists dist, m ≤ x) ∧ g.longest_path b = Except.ok (-m))
  ∧ (bellmanFord g.negated b.leader = Except.error () →
      g.longest_path b = Except.error PathErr.negativeCycle)
  ∧ (g.negated.nodes = g.nodes
      ∧ g.negated.edges = g.edges.map (fun e => (e.1, -e.2))) := by
  refine ⟨?_, ?_, rfl, rfl⟩
  · intro dist hbf
    have hsrc : ∃ v, assocLookup b.leader dist = some (some v) := by
      apply bellmanFord_source_finite g.negated b.leader _ dist hbf
      exact hs
    obtain ⟨m, hm⟩ := min?_of_ne_nil (finiteDists_nonempty dist b.leader hsrc)
    refine ⟨m, hm, List.min?_mem min_choice hm, ?_, ?_⟩
    · intro x hx
      exact ((List.le_min?_iff (fun _ _ _ => le_min_iff) hm).1 (le_refl m)) x hx
    · unfold MappedGraph.longest_path
      cases hv : assocLookup b.leader g.nodes with
      | none => rw [hv] at hs; cases hs
      | some blk =>
        rw [hbf]
        dsimp only
        rw [hm]
  · intro hbf
    unfold MappedGraph.longest_path
    cases hv : assocLookup b.leader g.nodes with
    | none => rw [hv] at hs; cases hs
    | some blk =>
      rw [hbf]

/-- C1: for an SCC resolved by the condenser, when the (acyclified) cycle
graph admits longest paths `p` from the entry and `q` from the exit, the
resolved latency is `total = cycle_path * max_iterations + directed_path`
with `cycle_path = p + entry_latency`, `directed_path = cycle_path - q`,
`entry_latency = entry_block.get_latency()` and `max_iterations` the
step-5 bound obtained from the CYCLE env var (default 1). -/
theorem c1_cycle_total_formula (env : String → Option String)
    (fictious_map : List (Nat × Nat)) (g : MappedGraph) (entry_block exit_block : Block)
    (m : Nat) (w : Bool) (p q : Int)
    (h1 : lookup_max_cycles env fictious_map entry_block.leader = Except.ok (m, w))
    (h2 : (remove_incoming_edges g entry_block).longest_path entry_block = Except.ok p)
    (h3 : (remove_incoming_edges g entry_block).longest_path exit_block = Except.ok q) :
    cycle_total env fictious_map g entry_block exit_block
      = Except.ok (Except.ok
          ((p + Int.ofNat entry_block.get_latency) * (m : Int)
            + ((p + Int.ofNat entry_block.get_latency) - q))) := by
  unfold cycle_total
  rw [h1]
  unfold reconstruct_longest_path
  rw [h2]
  dsimp only
  rw [h3]

/-- Witness for C1: on the concrete two-block loop body with
CYCLE_0x1 = 3, entry latency 2, `p = 3` and `q = 0`, the resolved
latency is `(3 + 2) * 3 + (3 + 2 - 0) = 20`. -/
theorem c1_cycle_total_formula_witness :
    cycle_total wEnv [] wGraph wEntryBlock wExitBlock = Except.ok (Except.ok 20) :=
  (c1_cycle_total_formula wEnv [] wGraph wEntryBlock wExitBlock 3 true 3 0
    (by decide) (by decide) (by decide)).trans (by decide)

/-- Witness for C4 on the concrete fixture graph: Bellman-Ford on the
negated graph succeeds with distances 0 and -3, whose minimum -3 yields
the longest-path latency 3. -/
theorem c4_longest_path_via_bellman_ford_witness :
    MappedGraph.longest_path wGraph wEntryBlock = Except.ok 3 := by
  obtain ⟨m, hm, _, _, hlp⟩ :=
    (c4_longest_path_via_bellman_ford wGraph wEntryBlock (by decide)).1
      [(1, some 0), (2, some (-3))] (by decide)
  have hm3 : m = -3 := by
    have h2 : (finiteDists [(1, some (0 : Int)), (2, some (-3))]).min? = some (-3) := by
      decide
    rw [hm] at h2
    exact Option.some.inj h2
  rw [hm3] at hlp
  exact hlp.trans (by decide)

/-- C5 counterexample: for a fictitious entry (leader 8 mapped to
original address 5) with the CYCLE variable unset, the bound defaults to
1 but no warning is issued (the `printwarning!` of src/src/cycle.rs lines
199-200 sits only on the non-fictitious branch), contradicting the claim
that a warning accompanies every defaulted bound. -/
theorem c5_warning_counterexample :
    lookup_max_cycles (fun _ => none) [(8, 5)] 8 = Except.ok (1, false)
      ∧ (Except.ok ((1 : Nat), false) : Except String (Nat × Bool))
          ≠ Except.ok (1, true) := by
  constructor
  · decide
  · decide

/-- C5 (amended): the bound is read from CYCLE_0x<entry> or, for a
fictitious entry, CYCLE_0x<original>; an unset variable defaults to 1; a
set but unparsable variable is fatal; the default-warning (and the
found-a-cycle warning) is issued exactly on the non-fictitious path,
never for fictitious entries. -/
theorem c5_amended_bound_lookup (env : String → Option String)
    (fictious_map : List (Nat × Nat)) (entry_leader : Nat) :
    (∀ real, assocLookup entry_leader fictious_map = some real →
      env ("CYCLE_0x" ++ toHex real) = none →
      lookup_max_cycles env fictious_map entry_leader = Except.ok (1, false))
  ∧ (assocLookup entry_leader fictious_map = none →
      env ("CYCLE_0x" ++ toHex entry_leader) = none →
      lookup_max_cycles env fictious_map entry_leader = Except.ok (1, true))
  ∧ (∀ real s, assocLookup entry_leader fictious_map = some real →
      env ("CYCLE_0x" ++ toHex real) = some s → parse_u32 s = none →
      lookup_max_cycles env fictious_map entry_leader
        = Except.error ("CYCLE_0x" ++ toHex real))
  ∧ (∀ s, assocLookup entry_leader fictious_map = none →
      env ("CYCLE_0x" ++ toHex entry_leader) = some s → parse_u32 s = none →
      lookup_max_cycles env fictious_map entry_leader
        = Except.error ("CYCLE_0x" ++ toHex entry_leader))
  ∧ (∀ real s n, assocLookup entry_leader fictious_map = some real →
      env ("CYCLE_0x" ++ toHex real) = some s → parse_u32 s = some n →
      lookup_max_cycles env fictious_map entry_leader = Except.ok (n, false))
  ∧ (∀ s n, assocLookup entry_leader fictious_map = none →
      env ("CYCLE_0x" ++ toHex entry_leader) = some s → parse_u32 s = some n →
      lookup_max_cycles env fictious_map entry_leader = Except.ok (n, true)) := by
  refine ⟨?_, ?_, ?_, ?_, ?_, ?_⟩
  · intro real hf he
    unfold lookup_max_cycles
    rw [hf]
    dsimp only
    rw [he]
  · intro hf he
    unfold lookup_max_cycles
    rw [hf]
    dsimp only
    rw [he]
  · intro real s hf he hp
    unfold lookup_max_cycles
    rw [hf]
    dsimp only
    rw [he]
    dsimp only
    rw [hp]
  · intro s hf he hp
    unfold lookup_max_cycles
    rw [hf]
    dsimp only
    rw [he]
    dsimp only
    rw [hp]
  · intro real s n hf he hp
    unfold lookup_max_cycles
    rw [hf]
    dsimp only
    rw [he]
    dsimp only
    rw [hp]
  · intro s n hf he hp
    unfold lookup_max_cycles
    rw [hf]
    dsimp only
    rw [he]
    dsimp only
    rw [hp]

/-- Witness for the amended C5: a non-fictitious entry at leader 7 with
an empty environment yields the default bound 1 with the warning. -/
theorem c5_amended_bound_lookup_witness :
    lookup_max_cycles (fun _ => none) [] 7 = Except.ok (1, true) :=
  (c5_amended_bound_lookup (fun _ => none) [] 7).2.1 (by decide) rfl

theorem choose_exit_block_mem (candidates : List Block) :
    ∀ entry : Block, choose_exit_block entry candidates ∈ entry :: candidates := by
  induction candidates with
  | nil =>
    intro e
    exact List.mem_cons_self _ _
  | cons c rest ih =>
    intro e
    show choose_exit_block (if c.leader > e.leader then c else e) rest ∈ e :: c :: rest
    by_cases h : c.leader > e.leader
    · rw [if_pos h]
      exact List.mem_cons_of_mem _ (ih c)
    · rw [if_neg h]
      rcases List.mem_cons.1 (ih e) with h1 | h1
      · rw [h1]
        exact List.mem_cons_self _ _
      · exact List.mem_cons_of_mem _ (List.mem_cons_of_mem _ h1)

theorem choose_exit_block_entry_le (candidates : List Block) :
    ∀ entry : Block, entry.leader ≤ (choose_exit_block entry candidates).leader := by
  induction candidates with
  | nil =>
    intro e
    exact le_refl _
  | cons c rest ih =>
    intro e
    show e.leader ≤ (choose_exit_block (if c.leader > e.leader then c else e) rest).leader
    by_cases h : c.leader > e.leader
    · rw [if_pos h]
      exact le_trans (le_of_lt h) (ih c)
    · rw [if_neg h]
      exact ih e

theorem choose_exit_block_cands_le (candidates : List Block) :
    ∀ entry : Block, ∀ c ∈ candidates,
      c.leader ≤ (choose_exit_block entry candidates).leader := by
  induction candidates with
  | nil =>
    intro e c hc
    cases hc
  | cons c rest ih =>
    intro e d hd
    rcases List.mem_cons.1 hd with h1 | h1
    · subst h1
      show d.leader ≤ (choose_exit_block (if d.leader > e.leader then d else e) rest).leader
      by_cases h : d.leader > e.leader
      · rw [if_pos h]
        exact choose_exit_block_entry_le rest d
      · rw [if_neg h]
        exact le_trans (le_of_not_lt h) (choose_exit_block_entry_le rest e)
    · show d.leader ≤ (choose_exit_block (if c.leader > e.leader then c else e) rest).leader
      exact ih _ d h1

/-- C6 counterexample: with entry leader 100 and false-exit candidates at
leaders 10 and 20 the chosen exit is the entry block itself (the fold in
src/src/cycle.rs lines 141-148 starts from `exit_block = entry_block`),
which is not one of the candidates, contradicting both parts of the
claim. -/
theorem c6_choose_exit_counterexample :
    choose_exit_block ⟨100, [], none⟩ [⟨10, [], none⟩, ⟨20, [], none⟩]
        = ⟨100, [], none⟩
      ∧ (⟨100, [], none⟩ : Block) ∉ ([⟨10, [], none⟩, ⟨20, [], none⟩] : List Block) := by
  constructor
  · decide
  · decide

/-- C6 (amended): with several false-exit candidates the chosen exit is
the highest-leader block among the candidates and the current entry
block; it maximises the leader over the candidates and is one of the
candidates whenever some candidate leader strictly exceeds the entry
leader (otherwise the entry itself is returned). -/
theorem c6_amended_choose_exit (entry : Block) (candidates : List Block) :
    (choose_exit_block entry candidates ∈ entry :: candidates)
  ∧ (entry.leader ≤ (choose_exit_block entry candidates).leader)
  ∧ (∀ c ∈ candidates, c.leader ≤ (choose_exit_block entry candidates).leader)
  ∧ ((∃ c ∈ candidates, entry.leader < c.leader) →
      choose_exit_block entry candidates ∈ candidates) := by
  refine ⟨choose_exit_block_mem candidates entry, choose_exit_block_entry_le candidates entry,
    choose_exit_block_cands_le candidates entry, ?_⟩
  rintro ⟨c, hc, hlt⟩
  have hle := choose_exit_block_cands_le candidates entry c hc
  have hne : choose_exit_block entry candidates ≠ entry := by
    intro he
    rw [he] at hle
    exact absurd (lt_of_lt_of_le hlt hle) (lt_irrefl _)
  rcases List.mem_cons.1 (choose_exit_block_mem candidates entry) with h1 | h1
  · exact absurd h1 hne
  · exact h1

/-- Witness for the amended C6: with entry leader 5 and a single
candidate at leader 10 the chosen exit is among the candidates. -/
theorem c6_amended_choose_exit_witness :
    choose_exit_block ⟨5, [], none⟩ [⟨10, [], none⟩] ∈ ([⟨10, [], none⟩] : List Block) :=
  (c6_amended_choose_exit ⟨5, [], none⟩ [⟨10, [], none⟩]).2.2.2
    ⟨⟨10, [], none⟩, by decide, by decide⟩

theorem edgeKeys_add_edge (g : MappedGraph) (s t : Block) (w : Int) (k : Nat × Nat) :
    k ∈ edgeKeys (g.add_edge s t w) ↔ k ∈ edgeKeys g ∨ k = (s.leader, t.leader) := by
  have hdef : MappedGraph.add_edge g s t w =
      (if (assocLookup (s.leader, t.leader) ((g.add_node s).add_node t).edges).isSome
       then (g.add_node s).add_node t
       else { nodes := ((g.add_node s).add_node t).nodes
              edges := ((g.add_node s).add_node t).edges ++ [((s.leader, t.leader), w)] }) := rfl
  have hek : edgeKeys ((g.add_node s).add_node t) = edgeKeys g := by
    unfold edgeKeys
    rw [add_node_edges, add_node_edges]
  rw [hdef]
  by_cases hkey : (assocLookup (s.leader, t.leader) ((g.add_node s).add_node t).edges).isSome
  · rw [if_pos hkey]
    rw [hek]
    constructor
    · exact Or.inl
    · rintro (h | h)
      · exact h
      · subst h
        have := assocLookup_isSome_iff.1 hkey
        rw [add_node_edges, add_node_edges] at this
        exact this
  · rw [if_neg hkey]
    show k ∈ edgeKeys ⟨_, ((g.add_node s).add_node t).edges ++ [((s.leader, t.leader), w)]⟩ ↔ _
    unfold edgeKeys
    simp only [List.map_append, List.map_cons, List.map_nil, List.mem_append,
      List.mem_singleton]
    rw [show (((g.add_node s).add_node t).edges.map Prod.fst) = edgeKeys g from hek]
    exact Iff.rfl

theorem add_block_edges_mem (blocks : List (Nat × Block)) (b : Block) :
    ∀ (targets : List Nat) (g : MappedGraph) (k : Nat × Nat),
      (k ∈ edgeKeys (targets.foldl
          (fun g2 target =>
            match assocLookup target blocks with
            | some target_block =>
              g2.add_edge b target_block (Int.ofNat target_block.get_latency)
            | none => g2)
          g)
        ↔ k ∈ edgeKeys g ∨ ∃ t ∈ targets, ∃ tb,
            assocLookup t blocks = some tb ∧ k = (b.leader, tb.leader)) := by
  intro targets
  induction targets with
  | nil =>
    intro g k
    simp
  | cons t rest ih =>
    intro g k
    rw [List.foldl_cons]
    rw [ih]
    have hstep : k ∈ edgeKeys (match assocLookup t blocks with
        | some target_block => g.add_edge b target_block (Int.ofNat target_block.get_latency)
        | none => g)
        ↔ k ∈ edgeKeys g ∨ ∃ tb, assocLookup t blocks = some tb ∧ k = (b.leader, tb.leader) := by
      cases hl : assocLookup t blocks with
      | none =>
        simp [hl]
      | some tb =>
        rw [edgeKeys_add_edge]
        simp [hl]
    rw [hstep]
    simp only [List.mem_cons]
    constructor
    · rintro ((h | ⟨tb, h1, h2⟩) | ⟨t0, ht0, tb, h1, h2⟩)
      · exact Or.inl h
      · exact Or.inr ⟨t, Or.inl rfl, tb, h1, h2⟩
      · exact Or.inr ⟨t0, Or.inr ht0, tb, h1, h2⟩
    · rintro (h | ⟨t0, ht0 | ht0, tb, h1, h2⟩)
      · exact Or.inl (Or.inl h)
      · subst ht0
        exact Or.inl (Or.inr ⟨tb, h1, h2⟩)
      · exact Or.inr ⟨t0, ht0, tb, h1, h2⟩

theorem build_graph_mem (blocks : List (Nat × Block)) :
    ∀ (L : List (Nat × Block)) (g : MappedGraph) (k : Nat × Nat),
      (k ∈ edgeKeys (L.foldl (fun g p => add_block_edges blocks g p.2) g)
        ↔ k ∈ edgeKeys g ∨ ∃ p ∈ L, ∃ t ∈ p.2.get_targets, ∃ tb,
            assocLookup t blocks = some tb ∧ k = (p.2.leader, tb.leader)) := by
  intro L
  induction L with
  | nil =>
    intro g k
    simp
  | cons p rest ih =>
    intro g k
    rw [List.foldl_cons, ih]
    rw [show add_block_edges blocks g p.2 = p.2.get_targets.foldl
        (fun g2 target =>
          match assocLookup target blocks with
          | some target_block =>
            g2.add_edge p.2 target_block (Int.ofNat target_block.get_latency)
          | none => g2) g from rfl]
    rw [add_block_edges_mem blocks p.2 p.2.get_targets g k]
    simp only [List.mem_cons]
    constructor
    · rintro ((h | h) | ⟨q, hq, h⟩)
      · exact Or.inl h
      · exact Or.inr ⟨p, Or.inl rfl, h⟩
      · exact Or.inr ⟨q, Or.inr hq, h⟩
    · rintro (h | ⟨q, hq | hq, h⟩)
      · exact Or.inl (Or.inl h)
      · subst hq
        exact Or.inl (Or.inr h)
      · exact Or.inr ⟨q, hq, h⟩

theorem successors_mem_iff (g : MappedGraph) (leader t : Nat) :
    t ∈ successors g leader ↔ (leader, t) ∈ edgeKeys g := by
  unfold successors
  constructor
  · intro h
    obtain ⟨k, hk, hkt⟩ := List.mem_map.1 h
    have := List.mem_filter.1 hk
    have hk1 : k.1 = leader := by
      have := this.2
      simpa using this
    have hk2 : k = (leader, t) := by
      cases k with
      | mk a c =>
        cases hk1
        cases hkt
        rfl
    rw [← hk2]
    exact this.1
  · intro h
    refine List.mem_map.2 ⟨(leader, t), List.mem_filter.2 ⟨h, by simp⟩, rfl⟩

/-- C3: in the CFG built by `calculate_wcet` the successor set of every
block equals exactly those `ExitJump` targets that exist as blocks (the
mapping of section 3: unresolvable targets contribute no edge); in
particular an `Indirect` block has no successors, and an unbound return
`Ret(0)` block has no successors whenever no block sits at address 0. -/
theorem c3_successors_eq_exit_targets (blocks : List (Nat × Block)) (b : Block)
    (hnd : (blocks.map Prod.fst).Nodup)
    (hkeys : ∀ p ∈ blocks, p.2.leader = p.1)
    (hb : assocLookup b.leader blocks = some b) :
    (∀ t, t ∈ successors (build_graph blocks) b.leader
        ↔ t ∈ b.get_targets ∧ (assocLookup t blocks).isSome)
  ∧ (b.exit_jump = some .Indirect → successors (build_graph blocks) b.leader = [])
  ∧ (b.exit_jump = some (.Ret 0) → assocLookup 0 blocks = none →
      successors (build_graph blocks) b.leader = []) := by
  have hmain : ∀ t, t ∈ successors (build_graph blocks) b.leader
      ↔ t ∈ b.get_targets ∧ (assocLookup t blocks).isSome := by
    intro t
    rw [successors_mem_iff]
    unfold build_graph
    rw [build_graph_mem blocks blocks MappedGraph.empty (b.leader, t)]
    constructor
    · rintro (h | ⟨p, hp, t0, ht0, tb, h1, h2⟩)
      · simp [MappedGraph.empty, edgeKeys] at h
      · have hp1 : p.2.leader = p.1 := hkeys p hp
        have hbl : b.leader = p.2.leader := (Prod.ext_iff.1 h2).1
        have ht : t = tb.leader := (Prod.ext_iff.1 h2).2
        have hp1b : p.1 = b.leader := by rw [← hp1, ← hbl]
        have hpmem : (b.leader, p.2) ∈ blocks := by
          have hpp : p = (b.leader, p.2) := by
            cases p with
            | mk a c => cases hp1b; rfl
          rw [← hpp]
          exact hp
        have hbmem : (b.leader, b) ∈ blocks := assocLookup_eq_some_mem hb
        have hpb : p.2 = b := assocLookup_fn_unique hnd hpmem hbmem
        have htb : tb.leader = t0 := hkeys (t0, tb) (assocLookup_eq_some_mem h1)
        constructor
        · rw [ht, htb, ← hpb]
          exact ht0
        · rw [ht, htb, h1]
          rfl
    · rintro ⟨hmem, hsome⟩
      obtain ⟨tb, htb⟩ := Option.isSome_iff_exists.1 hsome
      right
      refine ⟨(b.leader, b), assocLookup_eq_some_mem hb, t, hmem, tb, htb, ?_⟩
      have hl : tb.leader = t := hkeys (t, tb) (assocLookup_eq_some_mem htb)
      rw [hl]
  refine ⟨hmain, ?_, ?_⟩
  · intro hind
    rw [List.eq_nil_iff_forall_not_mem]
    intro t ht
    have hc := (hmain t).1 ht
    have hgt : b.get_targets = [] := by
      simp [Block.get_targets, hind]
    rw [hgt] at hc
    cases hc.1
  · intro hret h0
    rw [List.eq_nil_iff_forall_not_mem]
    intro t ht
    have hc := (hmain t).1 ht
    have hgt : b.get_targets = [0] := by
      simp [Block.get_targets, hret]
    rw [hgt] at hc
    have ht0 : t = 0 := by simpa using hc.1
    have := hc.2
    rw [ht0, h0] at this
    cases this

/-- Witness for C3 on the concrete fixture blocks: the block with the
unbound return `Ret(0)` at leader 2 is a sink of the built CFG. -/
theorem c3_successors_eq_exit_targets_witness :
    successors (build_graph [(1, wEntryBlock), (2, wExitBlock)]) 2 = [] := by
  have h := (c3_successors_eq_exit_targets [(1, wEntryBlock), (2, wExitBlock)] wExitBlock
    (by decide) (by decide) (by decide)).2.2 rfl (by decide)
  exact h

/-- C7 counterexample: on a stream with two calls to the same callee the
second call-site (address 4, counter 0) receives the fictitious leader
`4 << 1 = 8`, which equals the real address of the last instruction of
the stream; the fictitious-leader assignment is therefore not disjoint
from real instruction addresses. -/
theorem c7_fictitious_collides_with_real_address :
    (find_leaders_and_jumps c7Insns c7Classify).duplicated = [((6, 4), (8, 5))]
  ∧ 8 ∈ c7Insns.map Instruction.address
  ∧ fict_address 4 0 = 8 := by
  refine ⟨by decide, by decide, by decide⟩

/-- C7 (amended): the fictitious leaders of two distinct duplicated
call-sites are distinct provided the later call-site has both a larger
call-instruction address and a larger counter (which is how the scan
proceeds, in address order with a monotone counter) and neither shift
wraps modulo 2^64; collisions with real instruction addresses (and, with
wrap-around, among fictitious leaders) remain possible. -/
theorem c7_amended_fict_address_injective (a1 c1 a2 c2 : Nat)
    (ha : a1 < a2) (hc : c1 < c2) (hov : a2 * 2 ^ (1 + c2) < 2 ^ 64) :
    fict_address a1 c1 ≠ fict_address a2 c2 := by
  have h1 : a1 * 2 ^ (1 + c1) < a2 * 2 ^ (1 + c2) := by
    calc a1 * 2 ^ (1 + c1) < a2 * 2 ^ (1 + c1) :=
          mul_lt_mul_of_pos_right ha (Nat.pos_pow_of_pos _ (by norm_num))
      _ ≤ a2 * 2 ^ (1 + c2) :=
          Nat.mul_le_mul_left _ (Nat.pow_le_pow_right (by norm_num) (by omega))
  unfold fict_address
  rw [Nat.mod_eq_of_lt (lt_trans h1 hov), Nat.mod_eq_of_lt hov]
  exact Nat.ne_of_lt h1

/-- Witness for the amended C7: call-sites (address 1, counter 0) and
(address 2, counter 1) receive the distinct fictitious leaders 2 and 8. -/
theorem c7_amended_fict_address_injective_witness :
    fict_address 1 0 ≠ fict_address 2 1 :=
  c7_amended_fict_address_injective 1 0 2 1 (by decide) (by decide) (by decide)

/-- C2 (code bug): on the two-instruction straight-line stream the built
block map holds the final instruction twice — the loop body appends it
in its else-branch and the last-window clause (src/src/wcet.rs, lines
150-153) appends it again — so the concatenation of the blocks is
[i1, i2, i2], not the decoded stream [i1, i2]; every block latency of a
final block is inflated accordingly. -/
theorem c2_last_instruction_duplicated :
    build_blocks [wInsn 1 1, wInsn 2 1] [] [] [] []
      = some [(1, ⟨1, [wInsn 1 1, wInsn 2 1, wInsn 2 1], none⟩)]
  ∧ [wInsn 1 1, wInsn 2 1, wInsn 2 1] ≠ [wInsn 1 1, wInsn 2 1] := by
  refine ⟨by decide, by decide⟩

/-- C8 (code bug): the object-file layer accepts Sparc64 and maps it to
the SPARC capstone tag (src/src/arch.rs, lines 52-55), yet classifying
any SPARC branch instruction hits the `panic!("Unsupported
architecture!")` catch-all of `get_exit_jump` because the SPARC mnemonic
arm is commented out (src/src/jump.rs, line 95); an architecture inside
the supported set (e.g. X86) classifies the same shape of branch without
aborting. -/
theorem c8_sparc_branch_panics :
    arch_mode_from ObjArchitecture.Sparc64 = Except.ok (CapArch.SPARC, CapMode.V9)
  ∧ get_exit_jump ⟨100, "jmpl", "%i7+8, %g0"⟩ ⟨104, "nop", ""⟩ [CS_GRP_JUMP] CapArch.SPARC
      = Except.error "Unsupported architecture!"
  ∧ get_exit_jump ⟨100, "jmp", "0x40"⟩ ⟨104, "nop", ""⟩ [CS_GRP_JUMP] CapArch.X86
      = Except.ok (some (.UnconditionalAbsolute 64)) := by
  refine ⟨by decide, by decide, by decide⟩
